import Mathlib

/-!
Shallow embedding of the portfolio server of this repository.

Two near-duplicate server variants exist in the source:
* the file-backed variant at `Christopher Portfolio Site/server.js`
  (metadata in a JSON array file, blobs on local disk under `uploads/`);
* the Supabase variant at `server.js`
  (metadata in a hosted table, blobs in a storage bucket).

Definitions below are translated from those files.  Side effects are made
explicit: the metadata store is a list of items, the blob store a list of
object keys, and each fallible external call of the Supabase client is a
parameter describing its outcome.
-/

/-- A portfolio item record, the JSON object held by the metadata store.
The Supabase table stores the same fields under snake-case column names. -/
structure Item where
  id : String
  title : String
  description : String
  originalName : String
  storedName : String
  mimeType : String
  sizeBytes : Nat
  url : String
  uploadedAt : Nat
deriving DecidableEq

/-- JSON bodies produced by the API routes. -/
inductive Body
  | items (xs : List Item)
  | item (x : Item)
  | okTrue
  | error (msg : String)
deriving DecidableEq

/-- An HTTP response: status code plus JSON body.  `res.json` with no
explicit status sends 200. -/
structure Response where
  status : Nat
  body : Body
deriving DecidableEq

/-- State of the file-backed variant: the JSON database array and the set of
file names present in the uploads directory. -/
structure FState where
  db : List Item
  blobs : List String
deriving DecidableEq

/-- State of the Supabase variant: the table rows and the object keys present
in the storage bucket. -/
structure SState where
  table : List Item
  bucket : List String
deriving DecidableEq

/-- The admin-key guard of both delete handlers, including the JS truthiness
test: `if (!providedKey || providedKey !== ADMIN_KEY)`.  An absent header is
`none`; an empty header value is falsy and also rejected. -/
def keyRejected (adminKey : String) (key : Option String) : Bool :=
  match key with
  | none => true
  | some k => if k = "" then true else if k = adminKey then false else true

/-- `const ADMIN_KEY = process.env.ADMIN_KEY || "change_me"`.  An unset or
empty environment variable falls back to the default. -/
def configAdminKey (env : Option String) : String :=
  match env with
  | none => "change_me"
  | some s => if s = "" then "change_me" else s

/-- `err.message || fallback`: the catch blocks surface the thrown message
unless it is falsy. -/
def msgOr (e fallback : String) : String :=
  if e = "" then fallback else e

/-- The white-space characters removed by ECMAScript `String.prototype.trim`
(WhiteSpace and LineTerminator code points). -/
def jsWhitespaceChars : List Char :=
  [' ', '\t', '\n', '\r', '\x0b', '\x0c', '\u00A0', '\u1680', '\u2000',
   '\u2001', '\u2002', '\u2003', '\u2004', '\u2005', '\u2006', '\u2007',
   '\u2008', '\u2009', '\u200A', '\u2028', '\u2029', '\u202F', '\u205F',
   '\u3000', '\uFEFF']

def isJsWhitespace (c : Char) : Bool :=
  jsWhitespaceChars.contains c

/-- ECMAScript `String.prototype.trim`: strip leading and trailing
white space. -/
def jsTrim (s : String) : String :=
  String.mk (((s.data.dropWhile isJsWhitespace).reverse.dropWhile
    isJsWhitespace).reverse)

/-- Strip trailing path separators, as the scan in Node `path.extname` and
`path.parse` skips them before locating the last component. -/
def dropTrailingSlashes (l : List Char) : List Char :=
  (l.reverse.dropWhile (fun c => decide (c = '/'))).reverse

/-- The last path component (the basename) of a trailing-slash-free path. -/
def lastComponent (l : List Char) : List Char :=
  (l.reverse.takeWhile (fun c => decide (¬ c = '/'))).reverse

/-- Extension of a basename, following Node `path.extname` on the last
component: empty when there is no dot, when the only dot starts the name
(dotfiles), or when the component is exactly `..`; otherwise everything from
the last dot on. -/
def extnameCore (b : List Char) : List Char :=
  if b = ['.', '.'] then []
  else if b.all (fun c => decide (¬ c = '.')) then []
  else if ((b.reverse.takeWhile (fun c => decide (¬ c = '.'))).reverse).length + 1
          = b.length then []
  else '.' :: (b.reverse.takeWhile (fun c => decide (¬ c = '.'))).reverse

/-- Node `path.extname`. -/
def extnameChars (p : List Char) : List Char :=
  extnameCore (lastComponent (dropTrailingSlashes p))

def extname (s : String) : String :=
  String.mk (extnameChars s.data)

/-- Node `path.parse(p).name`: the basename with its extension removed. -/
def parseNameChars (p : List Char) : List Char :=
  (lastComponent (dropTrailingSlashes p)).take
    ((lastComponent (dropTrailingSlashes p)).length
      - (extnameCore (lastComponent (dropTrailingSlashes p))).length)

def parseName (s : String) : String :=
  String.mk (parseNameChars s.data)

/-- The multer `diskStorage` filename callback shared by both variants:
`` cb(null, `${id}${ext}`) `` with `ext = path.extname(file.originalname) || ""`.
Note `path.extname` already returns `""` when there is no extension, so the
`|| ""` fallback is the identity. -/
def multerFilename (uuid orig : String) : String :=
  uuid ++ extname orig

/-- The multer file object visible to the upload handlers. -/
structure FilePart where
  originalname : String
  mimetype : String
  size : Nat
deriving DecidableEq

/-- An upload request after body parsing: optional `file` part plus the
`title` and `description` fields (absent fields default to `""`). -/
structure UploadReq where
  file : Option FilePart
  title : String
  description : String
deriving DecidableEq

/-- `detectContentType` of the Supabase variant:
`file.mimetype || mime.lookup(file.originalname || "") || "application/octet-stream"`.
The `mime.lookup` table is a parameter (`none` models its `false` result). -/
def detectContentType (f : FilePart) (mimeLookup : String → Option String) :
    String :=
  if f.mimetype = "" then
    match mimeLookup f.originalname with
    | some m => if m = "" then "application/octet-stream" else m
    | none => "application/octet-stream"
  else f.mimetype

/-- The item built by the file-backed upload handler. -/
def mkItemFile (uuid : String) (f : FilePart) (title descr : String)
    (now : Nat) : Item :=
  let filename := multerFilename uuid f.originalname
  { id := parseName filename
    title := if jsTrim title = "" then f.originalname else jsTrim title
    description := jsTrim descr
    originalName := f.originalname
    storedName := filename
    mimeType := f.mimetype
    sizeBytes := f.size
    url := "/uploads/" ++ filename
    uploadedAt := now }

/-- `POST /api/portfolio/upload` of the file-backed variant.  multer has
already stored the blob and chosen the filename from a fresh uuid before the
handler body runs; with no `file` part nothing is written and the handler
answers 400. -/
def uploadHandlerFile (uuid : String) (now : Nat) (req : UploadReq)
    (st : FState) : Response × FState :=
  match req.file with
  | none => ({ status := 400, body := Body.error "No file received." }, st)
  | some f =>
    let it := mkItemFile uuid f req.title req.description now
    ({ status := 200, body := Body.item it },
     { db := st.db ++ [it], blobs := st.blobs ++ [it.storedName] })

/-- Stable insertion of an item into a list sorted by descending
`uploadedAt`; models one step of the comparator
`(a, b) => new Date(b.uploadedAt) - new Date(a.uploadedAt)`. -/
def insDesc (x : Item) : List Item → List Item
  | [] => [x]
  | y :: ys =>
    if y.uploadedAt ≤ x.uploadedAt then x :: y :: ys else y :: insDesc x ys

/-- The stable sort performed by `items.sort(...)` in the list handler. -/
def sortDesc : List Item → List Item
  | [] => []
  | x :: xs => insDesc x (sortDesc xs)

/-- `GET /api/portfolio` of the file-backed variant: read the database,
sort newest first, answer 200. -/
def listHandlerFile (db : List Item) : Response :=
  { status := 200, body := Body.items (sortDesc db) }

/-- The items array of a response (empty for non-list bodies). -/
def itemsOf (r : Response) : List Item :=
  match r.body with
  | Body.items xs => xs
  | _ => []

/-- `items.findIndex(x => x.id === id)` followed by `items.splice(idx, 1)`:
remove the first item with the given id, returning it and the remaining
array, or `none` when the id is absent. -/
def removeFirst (id : String) : List Item → Option (Item × List Item)
  | [] => none
  | x :: xs =>
    if x.id = id then some (x, xs)
    else
      match removeFirst id xs with
      | none => none
      | some (r, rest) => some (r, x :: rest)

/-- `DELETE /api/portfolio/:id` of the file-backed variant.  `unlinkOk`
models whether `fs.unlinkSync` succeeds when the blob file exists; a failure
is caught after `writeDB` already persisted the shrunk array. -/
def deleteHandlerFile (adminKey : String) (key : Option String) (id : String)
    (unlinkOk : Bool) (st : FState) : Response × FState :=
  if keyRejected adminKey key then
    ({ status := 401, body := Body.error "Unauthorized." }, st)
  else
    match removeFirst id st.db with
    | none => ({ status := 404, body := Body.error "Item not found." }, st)
    | some (removed, rest) =>
      if removed.storedName ∈ st.blobs then
        if unlinkOk then
          ({ status := 200, body := Body.okTrue },
           { db := rest, blobs := st.blobs.erase removed.storedName })
        else
          ({ status := 500, body := Body.error "Delete failed." },
           { db := rest, blobs := st.blobs })
      else
        ({ status := 200, body := Body.okTrue },
         { db := rest, blobs := st.blobs })

/-- `GET /api/portfolio` of the Supabase variant.  `qr` is the outcome of the
`select` query (rows already ordered by the database); `getUrl` is
`getPublicUrl`, whose falsy result falls back to the stored `url` column. -/
def listHandlerSupabase (qr : Except String (List Item))
    (getUrl : String → Option String) : Response :=
  match qr with
  | Except.error e => { status := 500, body := Body.error (msgOr e "Failed to load.") }
  | Except.ok rows =>
    { status := 200
      body := Body.items (rows.map (fun x =>
        { x with url :=
            match getUrl x.storedName with
            | some u => if u = "" then x.url else u
            | none => x.url })) }

/-- The row built and inserted by the Supabase upload handler (the handler
echoes the inserted row back as the response item). -/
def mkRowSupabase (uuid : String) (f : FilePart) (title descr : String)
    (contentType publicUrl : String) (now : Nat) : Item :=
  let storedName := multerFilename uuid f.originalname
  { id := parseName storedName
    title := if jsTrim title = "" then f.originalname else jsTrim title
    description := jsTrim descr
    originalName := f.originalname
    storedName := storedName
    mimeType := contentType
    sizeBytes := f.size
    url := publicUrl
    uploadedAt := now }

/-- `POST /api/portfolio/upload` of the Supabase variant.  `storageErr` and
`insertErr` are the outcomes of the bucket upload and the table insert
(`some e` models an error object with message `e`); `getUrl` is
`getPublicUrl`.  A blob uploaded before a later failure stays in the bucket. -/
def uploadHandlerSupabase (uuid : String) (now : Nat) (req : UploadReq)
    (mimeLookup getUrl : String → Option String)
    (storageErr insertErr : Option String) (st : SState) :
    Response × SState :=
  match req.file with
  | none => ({ status := 400, body := Body.error "No file received." }, st)
  | some f =>
    let storedName := multerFilename uuid f.originalname
    match storageErr with
    | some e => ({ status := 500, body := Body.error (msgOr e "Upload failed.") }, st)
    | none =>
      let st1 : SState := { st with bucket := st.bucket ++ [storedName] }
      match getUrl storedName with
      | none =>
        ({ status := 500,
           body := Body.error "Could not generate public URL (is the bucket public?)." },
         st1)
      | some u =>
        if u = "" then
          ({ status := 500,
             body := Body.error "Could not generate public URL (is the bucket public?)." },
           st1)
        else
          let row := mkRowSupabase uuid f req.title req.description
            (detectContentType f mimeLookup) u now
          match insertErr with
          | some e =>
            ({ status := 500, body := Body.error (msgOr e "Upload failed.") }, st1)
          | none =>
            ({ status := 200, body := Body.item row },
             { st1 with table := st1.table ++ [row] })

/-- `DELETE /api/portfolio/:id` of the Supabase variant.  The
`select ... .single()` lookup succeeds exactly when one row matches the id;
`delRowErr` and `removeErr` are the outcomes of the row delete and the bucket
object removal.  A failure of the object removal is thrown after the row was
already deleted. -/
def deleteHandlerSupabase (adminKey : String) (key : Option String)
    (id : String) (delRowErr removeErr : Option String) (st : SState) :
    Response × SState :=
  if keyRejected adminKey key then
    ({ status := 401, body := Body.error "Unauthorized." }, st)
  else
    match st.table.filter (fun x => decide (x.id = id)) with
    | [row] =>
      match delRowErr with
      | some e => ({ status := 500, body := Body.error (msgOr e "Delete failed.") }, st)
      | none =>
        let st1 : SState :=
          { st with table := st.table.filter (fun x => decide (¬ x.id = id)) }
        if row.storedName = "" then ({ status := 200, body := Body.okTrue }, st1)
        else
          match removeErr with
          | some e =>
            ({ status := 500, body := Body.error (msgOr e "Delete failed.") }, st1)
          | none =>
            ({ status := 200, body := Body.okTrue },
             { st1 with bucket := st1.bucket.erase row.storedName })
    | _ => ({ status := 404, body := Body.error "Item not found." }, st)

/-- A JSON primitive value, used to record the health bodies field by field. -/
inductive JVal
  | b (v : Bool)
  | s (v : String)
deriving DecidableEq

/-- `GET /api/health` of the file-backed variant: status and body are
constants. -/
def healthResponseFile : Nat × List (String × JVal) :=
  (200, [("ok", JVal.b true), ("status", JVal.s "healthy")])

/-- `GET /api/health` of the Supabase variant: status and body are constants,
with an extra `storage` field. -/
def healthResponseSupabase : Nat × List (String × JVal) :=
  (200, [("ok", JVal.b true), ("status", JVal.s "healthy"),
         ("storage", JVal.s "LOCAL_DISK")])

/-- The value parsed from the metadata file: either a JSON array of items or
any other JSON value. -/
inductive Json
  | arr (xs : List Item)
  | notArr
deriving DecidableEq

/-- Outcome of `fs.readFileSync` on the metadata file: `fsError` covers a
missing or unreadable file. -/
inductive FsRead
  | fsError
  | ok (raw : String)
deriving DecidableEq

/-- `readDB` of the file-backed variant: read the file, parse, and keep the
result only when it is an array; every failure path yields `[]` through the
catch-all. `parse` is `JSON.parse`, with `none` for a thrown SyntaxError. -/
def readDB (r : FsRead) (parse : String → Option Json) : List Item :=
  match r with
  | FsRead.fsError => []
  | FsRead.ok raw =>
    match parse raw with
    | none => []
    | some (Json.arr xs) => xs
    | some Json.notArr => []

/-- A sequence of upload requests (uuid, timestamp, request) applied to the
file-backed server state in order. -/
def runUploadsFile (ups : List (String × Nat × UploadReq)) (st : FState) :
    FState :=
  ups.foldl (fun s u => (uploadHandlerFile u.1 u.2.1 u.2.2 s).2) st

/-- A sample stored item used by the concrete witnesses below. -/
def sampleItem : Item :=
  { id := "a1", title := "Logo", description := "", originalName := "logo.png",
    storedName := "a1.png", mimeType := "image/png", sizeBytes := 12000,
    url := "/uploads/a1.png", uploadedAt := 100 }

/-- A JSON.parse outcome that always fails (malformed metadata file). -/
def parseNone : String → Option Json := fun _ => none

/-- A mime.lookup table with no entries. -/
def sampleMime : String → Option String := fun _ => none

/-- A getPublicUrl that prefixes the bucket address. -/
def sampleGetUrl : String → Option String := fun n => some ("https://cdn/" ++ n)

/-- Two successful uploads performed in the same millisecond. -/
def tiedUploads : List (String × Nat × UploadReq) :=
  [("u1", 5, { file := some { originalname := "a.png", mimetype := "image/png", size := 1 },
               title := "A", description := "" }),
   ("u2", 5, { file := some { originalname := "b.png", mimetype := "image/png", size := 1 },
               title := "B", description := "" })]

/-- The successful outcome of the Supabase list query
`from(TABLE).select("*").order("uploaded_at", { ascending: false })`: the
hosted table returns its rows sorted by uploaded_at descending (stable,
ties allowed). -/
def supabaseSelectOrdered (table : List Item) : Except String (List Item) :=
  Except.ok (sortDesc table)

/-- A sequence of upload requests (uuid, timestamp, request) applied to the
Supabase server state in order, with the bucket upload and the table insert
succeeding on every step. -/
def runUploadsSupabase (ups : List (String × Nat × UploadReq))
    (mimeLookup getUrl : String → Option String) (st : SState) : SState :=
  ups.foldl
    (fun s u => (uploadHandlerSupabase u.1 u.2.1 u.2.2 mimeLookup getUrl
      none none s).2) st

/-! ### General helper lemmas -/

lemma string_data_append (a b : String) : (a ++ b).data = a.data ++ b.data := by
  cases a; cases b; rfl

lemma string_mk_data (s : String) : String.mk s.data = s := by
  cases s; rfl

lemma string_empty_data : ("" : String).data = [] := rfl

lemma prop_of_mem_takeWhile {p : Char → Bool} {l : List Char} {c : Char}
    (h : c ∈ l.takeWhile p) : p c = true := by
  induction l with
  | nil => simp at h
  | cons a as ih =>
    rw [List.takeWhile_cons] at h
    by_cases hp : p a = true
    · rw [if_pos hp] at h
      rcases List.mem_cons.mp h with rfl | h
      · exact hp
      · exact ih h
    · rw [if_neg hp] at h
      simp at h

lemma mem_of_mem_takeWhile {p : Char → Bool} {l : List Char} {c : Char}
    (h : c ∈ l.takeWhile p) : c ∈ l := by
  induction l with
  | nil => simp at h
  | cons a as ih =>
    rw [List.takeWhile_cons] at h
    by_cases hp : p a = true
    · rw [if_pos hp] at h
      rcases List.mem_cons.mp h with rfl | h
      · exact List.mem_cons_self _ _
      · exact List.mem_cons_of_mem _ (ih h)
    · rw [if_neg hp] at h
      simp at h

lemma mem_of_mem_dropWhile {p : Char → Bool} {l : List Char} {c : Char}
    (h : c ∈ l.dropWhile p) : c ∈ l := by
  induction l with
  | nil => simp at h
  | cons a as ih =>
    rw [List.dropWhile_cons] at h
    by_cases hp : p a = true
    · rw [if_pos hp] at h
      exact List.mem_cons_of_mem _ (ih h)
    · rw [if_neg hp] at h
      exact h

lemma dropWhile_eq_self_of_all {p : Char → Bool} {l : List Char}
    (h : ∀ c ∈ l, p c = false) : l.dropWhile p = l := by
  cases l with
  | nil => rfl
  | cons a as =>
    rw [List.dropWhile_cons, h a (List.mem_cons_self a as)]
    simp

lemma takeWhile_eq_self_of_all {p : Char → Bool} {l : List Char}
    (h : ∀ c ∈ l, p c = true) : l.takeWhile p = l := by
  induction l with
  | nil => rfl
  | cons a as ih =>
    rw [List.takeWhile_cons, h a (List.mem_cons_self a as)]
    simp [ih (fun c hc => h c (List.mem_cons_of_mem a hc))]

lemma takeWhile_append_of_all {p : Char → Bool} {l r : List Char}
    (h : ∀ c ∈ l, p c = true) : (l ++ r).takeWhile p = l ++ r.takeWhile p := by
  induction l with
  | nil => simp
  | cons a as ih =>
    rw [List.cons_append, List.takeWhile_cons, h a (List.mem_cons_self a as)]
    simp [ih (fun c hc => h c (List.mem_cons_of_mem a hc))]

/-! ### jsTrim -/

lemma jsTrim_eq_empty_iff {s : String} :
    jsTrim s = "" ↔ ∀ c ∈ s.data, isJsWhitespace c = true := by
  constructor
  · intro h c hc
    have hd : (((s.data.dropWhile isJsWhitespace).reverse.dropWhile
        isJsWhitespace).reverse) = [] := congrArg String.data h
    rw [List.reverse_eq_nil_iff, List.dropWhile_eq_nil_iff] at hd
    have hall : ∀ c ∈ s.data.dropWhile isJsWhitespace, isJsWhitespace c = true :=
      fun c hc => hd c (List.mem_reverse.mpr hc)
    rw [← List.takeWhile_append_dropWhile isJsWhitespace s.data] at hc
    rcases List.mem_append.mp hc with hc | hc
    · exact prop_of_mem_takeWhile hc
    · exact hall c hc
  · intro h
    apply String.ext
    show (((s.data.dropWhile isJsWhitespace).reverse.dropWhile
        isJsWhitespace).reverse) = []
    rw [List.reverse_eq_nil_iff, List.dropWhile_eq_nil_iff]
    intro c hc
    exact h c (mem_of_mem_dropWhile (List.mem_reverse.mp hc))

/-! ### Admin-key configuration and guard -/

lemma configAdminKey_ne_empty (env : Option String) :
    ¬ configAdminKey env = "" := by
  cases env with
  | none => simp [configAdminKey]
  | some s =>
    by_cases h : s = ""
    · simp [configAdminKey, h]
    · simp [configAdminKey, h]

lemma keyRejected_self {ak : String} (h : ¬ ak = "") :
    keyRejected ak (some ak) = false := by
  simp [keyRejected, h]

lemma keyRejected_true_of (ak : String) {key : Option String}
    (h : key = none ∨ ∃ k, key = some k ∧ ¬ k = ak) :
    keyRejected ak key = true := by
  rcases h with rfl | ⟨k, rfl, hk⟩
  · rfl
  · by_cases h0 : k = ""
    · simp [keyRejected, h0]
    · simp [keyRejected, h0, hk]

/-! ### removeFirst -/

lemma removeFirst_eq_none {id : String} {l : List Item}
    (h : ∀ x ∈ l, ¬ x.id = id) : removeFirst id l = none := by
  induction l with
  | nil => rfl
  | cons x xs ih =>
    rw [removeFirst, if_neg (h x (List.mem_cons_self x xs)),
      ih (fun y hy => h y (List.mem_cons_of_mem x hy))]

/-! ### The sort of the list handler -/

lemma mem_insDesc {z x : Item} {l : List Item} :
    z ∈ insDesc x l ↔ z = x ∨ z ∈ l := by
  induction l with
  | nil => simp [insDesc]
  | cons y ys ih =>
    by_cases h : y.uploadedAt ≤ x.uploadedAt
    · simp [insDesc, h]
    · simp [insDesc, h, ih]
      tauto

lemma pairwise_insDesc {x : Item} {l : List Item}
    (hl : List.Pairwise (fun a b => b.uploadedAt ≤ a.uploadedAt) l) :
    List.Pairwise (fun a b => b.uploadedAt ≤ a.uploadedAt) (insDesc x l) := by
  induction l with
  | nil => simp [insDesc]
  | cons y ys ih =>
    rcases List.pairwise_cons.mp hl with ⟨hy, hys⟩
    by_cases h : y.uploadedAt ≤ x.uploadedAt
    · rw [insDesc, if_pos h]
      refine List.pairwise_cons.mpr ⟨?_, hl⟩
      intro z hz
      rcases List.mem_cons.mp hz with rfl | hz
      · exact h
      · exact le_trans (hy z hz) h
    · rw [insDesc, if_neg h]
      refine List.pairwise_cons.mpr ⟨?_, ih hys⟩
      intro z hz
      rcases mem_insDesc.mp hz with rfl | hz
      · exact le_of_lt (not_le.mp h)
      · exact hy z hz

lemma length_insDesc (x : Item) (l : List Item) :
    (insDesc x l).length = l.length + 1 := by
  induction l with
  | nil => rfl
  | cons y ys ih =>
    by_cases h : y.uploadedAt ≤ x.uploadedAt
    · simp [insDesc, h]
    · simp [insDesc, h, ih]

lemma perm_insDesc (x : Item) (l : List Item) : (insDesc x l).Perm (x :: l) := by
  induction l with
  | nil => exact List.Perm.refl _
  | cons y ys ih =>
    by_cases h : y.uploadedAt ≤ x.uploadedAt
    · rw [insDesc, if_pos h]
    · rw [insDesc, if_neg h]
      exact ((List.perm_cons y).mpr ih).trans (List.Perm.swap x y ys)

lemma pairwise_sortDesc (l : List Item) :
    List.Pairwise (fun a b => b.uploadedAt ≤ a.uploadedAt) (sortDesc l) := by
  induction l with
  | nil => simp [sortDesc]
  | cons x xs ih =>
    rw [sortDesc]
    exact pairwise_insDesc ih

lemma length_sortDesc (l : List Item) : (sortDesc l).length = l.length := by
  induction l with
  | nil => rfl
  | cons x xs ih =>
    rw [sortDesc, length_insDesc, ih, List.length_cons]

lemma perm_sortDesc (l : List Item) : (sortDesc l).Perm l := by
  induction l with
  | nil => exact List.Perm.refl _
  | cons x xs ih =>
    rw [sortDesc]
    exact (perm_insDesc x (sortDesc xs)).trans ((List.perm_cons x).mpr ih)

/-! ### Upload sequences -/

lemma uploadHandlerFile_db_length {uuid : String} {now : Nat} {req : UploadReq}
    {st : FState} (h : ¬ req.file = none) :
    (uploadHandlerFile uuid now req st).2.db.length = st.db.length + 1 := by
  rcases hf : req.file with _ | f
  · exact absurd hf h
  · simp [uploadHandlerFile, hf]

lemma runUploadsFile_db_length (ups : List (String × Nat × UploadReq))
    (st : FState) (h : ∀ u ∈ ups, ¬ u.2.2.file = none) :
    (runUploadsFile ups st).db.length = st.db.length + ups.length := by
  induction ups generalizing st with
  | nil => simp [runUploadsFile]
  | cons u rest ih =>
    rw [runUploadsFile, List.foldl_cons]
    have h1 : (uploadHandlerFile u.1 u.2.1 u.2.2 st).2.db.length
        = st.db.length + 1 :=
      uploadHandlerFile_db_length (h u (List.mem_cons_self _ _))
    have h2 := ih ((uploadHandlerFile u.1 u.2.1 u.2.2 st).2)
      (fun v hv => h v (List.mem_cons_of_mem u hv))
    rw [runUploadsFile] at h2
    rw [h2, h1, List.length_cons]
    omega

/-! ### extname and parse name -/

lemma dropTrailingSlashes_eq_self {l : List Char} (h : ∀ c ∈ l, ¬ c = '/') :
    dropTrailingSlashes l = l := by
  rw [dropTrailingSlashes, dropWhile_eq_self_of_all, List.reverse_reverse]
  intro c hc
  rw [decide_eq_false_iff_not]
  exact h c (List.mem_reverse.mp hc)

lemma lastComponent_eq_self {l : List Char} (h : ∀ c ∈ l, ¬ c = '/') :
    lastComponent l = l := by
  rw [lastComponent, takeWhile_eq_self_of_all, List.reverse_reverse]
  intro c hc
  rw [decide_eq_true_eq]
  exact h c (List.mem_reverse.mp hc)

lemma extnameCore_of_no_dot {b : List Char} (h : ∀ c ∈ b, ¬ c = '.') :
    extnameCore b = [] := by
  by_cases hb : b = ['.', '.']
  · rw [extnameCore, if_pos hb]
  · rw [extnameCore, if_neg hb, if_pos]
    rw [List.all_eq_true]
    intro c hc
    rw [decide_eq_true_eq]
    exact h c hc

lemma extnameCore_shape (b : List Char) :
    extnameCore b = [] ∨
    ∃ t, extnameCore b = '.' :: t ∧ (∀ c ∈ t, ¬ c = '.') ∧ (∀ c ∈ t, c ∈ b) := by
  by_cases h1 : b = ['.', '.']
  · left
    rw [extnameCore, if_pos h1]
  · by_cases h2 : b.all (fun c => decide (¬ c = '.')) = true
    · left
      rw [extnameCore, if_neg h1, if_pos h2]
    · by_cases h3 : ((b.reverse.takeWhile (fun c => decide (¬ c = '.'))).reverse).length + 1
          = b.length
      · left
        rw [extnameCore, if_neg h1, if_neg h2, if_pos h3]
      · right
        refine ⟨(b.reverse.takeWhile (fun c => decide (¬ c = '.'))).reverse,
          by rw [extnameCore, if_neg h1, if_neg h2, if_neg h3], ?_, ?_⟩
        · intro c hc
          have hp := prop_of_mem_takeWhile (List.mem_reverse.mp hc)
          rwa [decide_eq_true_eq] at hp
        · intro c hc
          exact List.mem_reverse.mp (mem_of_mem_takeWhile (List.mem_reverse.mp hc))

lemma extnameCore_append (u t : List Char) (hne : ¬ u = [])
    (hdot : ∀ c ∈ u, ¬ c = '.') (htdot : ∀ c ∈ t, ¬ c = '.') :
    extnameCore (u ++ '.' :: t) = '.' :: t := by
  have hne2 : ¬ (u ++ '.' :: t) = ['.', '.'] := by
    intro h
    cases u with
    | nil => exact hne rfl
    | cons a u2 =>
      rw [List.cons_append] at h
      have ha : a = '.' := by
        have := congrArg (fun l => l.headD ' ') h
        simpa using this
      exact hdot a (List.mem_cons_self _ _) ha
  have hall : ¬ ((u ++ '.' :: t).all (fun c => decide (¬ c = '.')) = true) := by
    rw [List.all_eq_true]
    intro hh
    have hd := hh '.' (List.mem_append.mpr (Or.inr (List.mem_cons_self _ _)))
    rw [decide_eq_true_eq] at hd
    exact hd rfl
  have hrev : (u ++ '.' :: t).reverse = t.reverse ++ '.' :: u.reverse := by
    rw [List.reverse_append, List.reverse_cons, List.append_assoc,
      List.singleton_append]
  have htake : (u ++ '.' :: t).reverse.takeWhile (fun c => decide (¬ c = '.'))
      = t.reverse := by
    rw [hrev, takeWhile_append_of_all, List.takeWhile_cons]
    · simp
    · intro c hc
      rw [decide_eq_true_eq]
      exact htdot c (List.mem_reverse.mp hc)
  have hlen : ¬ ((((u ++ '.' :: t).reverse.takeWhile
        (fun c => decide (¬ c = '.'))).reverse).length + 1 = (u ++ '.' :: t).length) := by
    rw [htake, List.reverse_reverse, List.length_append, List.length_cons]
    intro hh
    have hu0 : u.length = 0 := by omega
    exact hne (List.length_eq_zero.mp hu0)
  rw [extnameCore, if_neg hne2, if_neg hall, if_neg hlen, htake,
    List.reverse_reverse]

lemma parseNameChars_append (u e : List Char) (hne : ¬ u = [])
    (hdot : ∀ c ∈ u, ¬ c = '.') (hsl : ∀ c ∈ u, ¬ c = '/')
    (he : e = [] ∨
      ∃ t, e = '.' :: t ∧ (∀ c ∈ t, ¬ c = '.') ∧ (∀ c ∈ t, ¬ c = '/')) :
    parseNameChars (u ++ e) = u := by
  rcases he with rfl | ⟨t, rfl, htdot, htsl⟩
  · rw [List.append_nil, parseNameChars, dropTrailingSlashes_eq_self hsl,
      lastComponent_eq_self hsl, extnameCore_of_no_dot hdot]
    simp [List.take_length]
  · have hslf : ∀ c ∈ u ++ '.' :: t, ¬ c = '/' := by
      intro c hc
      rcases List.mem_append.mp hc with hc | hc
      · exact hsl c hc
      · rcases List.mem_cons.mp hc with rfl | hc
        · decide
        · exact htsl c hc
    rw [parseNameChars, dropTrailingSlashes_eq_self hslf,
      lastComponent_eq_self hslf, extnameCore_append u t hne hdot htdot]
    have hl : (u ++ '.' :: t).length - ('.' :: t).length = u.length := by
      rw [List.length_append]
      omega
    rw [hl, List.take_left]

lemma extnameChars_shape (p : List Char) :
    extnameChars p = [] ∨
    ∃ t, extnameChars p = '.' :: t ∧ (∀ c ∈ t, ¬ c = '.') ∧
      (∀ c ∈ t, ¬ c = '/') := by
  rw [extnameChars]
  rcases extnameCore_shape (lastComponent (dropTrailingSlashes p)) with h | ⟨t, h, ht, htm⟩
  · left
    exact h
  · right
    refine ⟨t, h, ht, ?_⟩
    intro c hc
    have hcb := htm c hc
    rw [lastComponent] at hcb
    have hp := prop_of_mem_takeWhile (List.mem_reverse.mp hcb)
    rwa [decide_eq_true_eq] at hp

lemma parseName_multer (uuid orig : String) (hne : ¬ uuid = "")
    (hdot : ∀ c ∈ uuid.data, ¬ c = '.') (hsl : ∀ c ∈ uuid.data, ¬ c = '/') :
    parseName (multerFilename uuid orig) = uuid := by
  have hned : ¬ uuid.data = [] := by
    intro h
    exact hne (String.ext (h.trans string_empty_data.symm))
  have hdata : (uuid ++ extname orig).data = uuid.data ++ extnameChars orig.data := by
    rw [string_data_append]
    rfl
  rw [multerFilename, parseName, hdata,
    parseNameChars_append uuid.data (extnameChars orig.data) hned hdot hsl
      (extnameChars_shape orig.data), string_mk_data]

/-! ### Supabase listing and upload sequences -/

lemma sortDesc_strict_of_distinct {l : List Item}
    (hdist : List.Pairwise (fun a b => ¬ a.uploadedAt = b.uploadedAt) l) :
    List.Pairwise (fun a b => b.uploadedAt < a.uploadedAt) (sortDesc l) := by
  have h1 := pairwise_sortDesc l
  have h2 : List.Pairwise (fun a b : Item => ¬ a.uploadedAt = b.uploadedAt)
      (sortDesc l) :=
    ((perm_sortDesc l).pairwise_iff (fun hxy hh => hxy hh.symm)).mpr hdist
  exact (h1.and h2).imp
    (fun hab => lt_of_le_of_ne hab.1 (fun hh => hab.2 hh.symm))

lemma itemsOf_listHandlerSupabase_ok (rows : List Item)
    (getUrl : String → Option String) :
    itemsOf (listHandlerSupabase (Except.ok rows) getUrl)
      = rows.map (fun x =>
          { x with url :=
              match getUrl x.storedName with
              | some u => if u = "" then x.url else u
              | none => x.url }) := rfl

lemma uploadHandlerSupabase_table_length {uuid : String} {now : Nat}
    {req : UploadReq} {mimeLookup getUrl : String → Option String}
    {st : SState} (hreq : ¬ req.file = none)
    (hg : ∀ n, ∃ u, getUrl n = some u ∧ ¬ u = "") :
    (uploadHandlerSupabase uuid now req mimeLookup getUrl none none
      st).2.table.length = st.table.length + 1 := by
  rcases hf : req.file with _ | f
  · exact absurd hf hreq
  · obtain ⟨u, hu, hne⟩ := hg (multerFilename uuid f.originalname)
    simp [uploadHandlerSupabase, hf, hu, hne]

lemma runUploadsSupabase_table_length (ups : List (String × Nat × UploadReq))
    (mimeLookup getUrl : String → Option String) (st : SState)
    (h : ∀ u ∈ ups, ¬ u.2.2.file = none)
    (hg : ∀ n, ∃ u, getUrl n = some u ∧ ¬ u = "") :
    (runUploadsSupabase ups mimeLookup getUrl st).table.length
      = st.table.length + ups.length := by
  induction ups generalizing st with
  | nil => simp [runUploadsSupabase]
  | cons u rest ih =>
    rw [runUploadsSupabase, List.foldl_cons]
    have h1 : (uploadHandlerSupabase u.1 u.2.1 u.2.2 mimeLookup getUrl
        none none st).2.table.length = st.table.length + 1 :=
      uploadHandlerSupabase_table_length (h u (List.mem_cons_self _ _)) hg
    have h2 := ih ((uploadHandlerSupabase u.1 u.2.1 u.2.2 mimeLookup getUrl
        none none st).2) (fun v hv => h v (List.mem_cons_of_mem u hv))
    rw [runUploadsSupabase] at h2
    rw [h2, h1, List.length_cons]
    omega

lemma sampleGetUrl_ok : ∀ n, ∃ u, sampleGetUrl n = some u ∧ ¬ u = "" := by
  intro n
  refine ⟨"https://cdn/" ++ n, rfl, ?_⟩
  intro h
  have hd := congrArg String.data h
  rw [string_data_append, string_empty_data, List.append_eq_nil] at hd
  exact absurd hd.1 (by decide)

/-! ### Claims -/

/-- Claim C1: a DELETE request whose x-admin-key header is absent or not
string-equal to the configured admin secret answers 401 with an ok=false
error body and leaves the metadata store and the blob store of both variants
unchanged, whether or not the id exists. -/
theorem c1_delete_unauthorized (adminKey id : String) (key : Option String)
    (unlinkOk : Bool) (dErr rErr : Option String) (stF : FState) (stS : SState)
    (h : key = none ∨ ∃ k, key = some k ∧ ¬ k = adminKey) :
    (deleteHandlerFile adminKey key id unlinkOk stF).1.status = 401 ∧
    (deleteHandlerFile adminKey key id unlinkOk stF).1.body
      = Body.error "Unauthorized." ∧
    (deleteHandlerFile adminKey key id unlinkOk stF).2 = stF ∧
    (deleteHandlerSupabase adminKey key id dErr rErr stS).1.status = 401 ∧
    (deleteHandlerSupabase adminKey key id dErr rErr stS).1.body
      = Body.error "Unauthorized." ∧
    (deleteHandlerSupabase adminKey key id dErr rErr stS).2 = stS := by
  have hk := keyRejected_true_of adminKey h
  simp [deleteHandlerFile, deleteHandlerSupabase, hk]

/-- Concrete run of c1_delete_unauthorized on a wrong key. -/
theorem c1_witness :
    (deleteHandlerFile "change_me" (some "wrong") "a1" true
      ⟨[sampleItem], ["a1.png"]⟩).1.status = 401 ∧
    (deleteHandlerFile "change_me" (some "wrong") "a1" true
      ⟨[sampleItem], ["a1.png"]⟩).1.body = Body.error "Unauthorized." ∧
    (deleteHandlerFile "change_me" (some "wrong") "a1" true
      ⟨[sampleItem], ["a1.png"]⟩).2 = ⟨[sampleItem], ["a1.png"]⟩ ∧
    (deleteHandlerSupabase "change_me" (some "wrong") "a1" none none
      ⟨[sampleItem], ["a1.png"]⟩).1.status = 401 ∧
    (deleteHandlerSupabase "change_me" (some "wrong") "a1" none none
      ⟨[sampleItem], ["a1.png"]⟩).1.body = Body.error "Unauthorized." ∧
    (deleteHandlerSupabase "change_me" (some "wrong") "a1" none none
      ⟨[sampleItem], ["a1.png"]⟩).2 = ⟨[sampleItem], ["a1.png"]⟩ :=
  c1_delete_unauthorized "change_me" "a1" (some "wrong") true none none
    ⟨[sampleItem], ["a1.png"]⟩ ⟨[sampleItem], ["a1.png"]⟩
    (Or.inr ⟨"wrong", rfl, by decide⟩)

/-- Claim C4: an upload request with no file part answers 400 with an error
body and leaves both stores of both variants untouched, so no metadata row is
created. -/
theorem c4_upload_no_file (uuid : String) (now : Nat) (title descr : String)
    (st : FState) (mimeLookup getUrl : String → Option String)
    (sErr iErr : Option String) (stS : SState) :
    (uploadHandlerFile uuid now ⟨none, title, descr⟩ st).1.status = 400 ∧
    (uploadHandlerFile uuid now ⟨none, title, descr⟩ st).1.body
      = Body.error "No file received." ∧
    (uploadHandlerFile uuid now ⟨none, title, descr⟩ st).2 = st ∧
    (uploadHandlerSupabase uuid now ⟨none, title, descr⟩ mimeLookup getUrl
      sErr iErr stS).1.status = 400 ∧
    (uploadHandlerSupabase uuid now ⟨none, title, descr⟩ mimeLookup getUrl
      sErr iErr stS).1.body = Body.error "No file received." ∧
    (uploadHandlerSupabase uuid now ⟨none, title, descr⟩ mimeLookup getUrl
      sErr iErr stS).2 = stS :=
  ⟨rfl, rfl, rfl, rfl, rfl, rfl⟩

/-- Claim C5: the Supabase list route answers 200 with an items body exactly
when the store read succeeds and 500 with an error body exactly when the
read fails; the file-backed list route cannot observe a failed read and
always answers 200. -/
theorem c5_list_status (getUrl : String → Option String) (e : String)
    (rows db : List Item) :
    (listHandlerSupabase (Except.error e) getUrl).status = 500 ∧
    (∃ m, (listHandlerSupabase (Except.error e) getUrl).body = Body.error m) ∧
    (listHandlerSupabase (Except.ok rows) getUrl).status = 200 ∧
    (∃ xs, (listHandlerSupabase (Except.ok rows) getUrl).body
      = Body.items xs) ∧
    (∀ qr, (listHandlerSupabase qr getUrl).status = 500
      ↔ ∃ e2, qr = Except.error e2) ∧
    (listHandlerFile db).status = 200 := by
  refine ⟨rfl, ⟨msgOr e "Failed to load.", rfl⟩, rfl, ⟨_, rfl⟩, ?_, rfl⟩
  intro qr
  cases qr with
  | error e2 => simp [listHandlerSupabase]
  | ok rows2 => simp [listHandlerSupabase]

/-- Claim C8: an authorized DELETE naming an id that no metadata row carries
answers 404 with an error body and leaves both stores of both variants
unchanged; the configured admin secret is never empty, so the correct key
passes the truthiness guard. -/
theorem c8_delete_unknown_id (env : Option String) (id : String)
    (unlinkOk : Bool) (dErr rErr : Option String) (stF : FState) (stS : SState)
    (hF : ∀ x ∈ stF.db, ¬ x.id = id) (hS : ∀ x ∈ stS.table, ¬ x.id = id) :
    (deleteHandlerFile (configAdminKey env) (some (configAdminKey env)) id
      unlinkOk stF).1.status = 404 ∧
    (deleteHandlerFile (configAdminKey env) (some (configAdminKey env)) id
      unlinkOk stF).1.body = Body.error "Item not found." ∧
    (deleteHandlerFile (configAdminKey env) (some (configAdminKey env)) id
      unlinkOk stF).2 = stF ∧
    (deleteHandlerSupabase (configAdminKey env) (some (configAdminKey env)) id
      dErr rErr stS).1.status = 404 ∧
    (deleteHandlerSupabase (configAdminKey env) (some (configAdminKey env)) id
      dErr rErr stS).1.body = Body.error "Item not found." ∧
    (deleteHandlerSupabase (configAdminKey env) (some (configAdminKey env)) id
      dErr rErr stS).2 = stS := by
  have hk := keyRejected_self (configAdminKey_ne_empty env)
  have hr := removeFirst_eq_none hF
  have hfilter : stS.table.filter (fun x => decide (x.id = id)) = [] := by
    rw [List.filter_eq_nil_iff]
    intro a ha
    simp only [decide_eq_true_eq]
    exact hS a ha
  simp [deleteHandlerFile, deleteHandlerSupabase, hk, hr, hfilter]

/-- Concrete run of c8_delete_unknown_id on an id absent from the stores. -/
theorem c8_witness :
    (deleteHandlerFile (configAdminKey none) (some (configAdminKey none)) "zz"
      true ⟨[sampleItem], ["a1.png"]⟩).1.status = 404 ∧
    (deleteHandlerFile (configAdminKey none) (some (configAdminKey none)) "zz"
      true ⟨[sampleItem], ["a1.png"]⟩).1.body = Body.error "Item not found." ∧
    (deleteHandlerFile (configAdminKey none) (some (configAdminKey none)) "zz"
      true ⟨[sampleItem], ["a1.png"]⟩).2 = ⟨[sampleItem], ["a1.png"]⟩ ∧
    (deleteHandlerSupabase (configAdminKey none) (some (configAdminKey none))
      "zz" none none ⟨[sampleItem], ["a1.png"]⟩).1.status = 404 ∧
    (deleteHandlerSupabase (configAdminKey none) (some (configAdminKey none))
      "zz" none none ⟨[sampleItem], ["a1.png"]⟩).1.body
      = Body.error "Item not found." ∧
    (deleteHandlerSupabase (configAdminKey none) (some (configAdminKey none))
      "zz" none none ⟨[sampleItem], ["a1.png"]⟩).2
      = ⟨[sampleItem], ["a1.png"]⟩ :=
  c8_delete_unknown_id none "zz" true none none
    ⟨[sampleItem], ["a1.png"]⟩ ⟨[sampleItem], ["a1.png"]⟩
    (by decide) (by decide)

/-- Claim C9 fails as stated: the Supabase variant's health body is not the
two-field constant; it carries an extra storage field. -/
theorem c9_counterexample :
    ¬ (healthResponseSupabase
      = (200, [("ok", JVal.b true), ("status", JVal.s "healthy")])) := by
  decide

/-- Claim C9 (amended): both health handlers are constants independent of any
store state, always 200 with ok=true and status="healthy"; the file-backed
body is exactly those two fields, while the Supabase variant adds
storage="LOCAL_DISK". -/
theorem c9_health_constant :
    healthResponseFile
      = (200, [("ok", JVal.b true), ("status", JVal.s "healthy")]) ∧
    healthResponseSupabase
      = (200, [("ok", JVal.b true), ("status", JVal.s "healthy"),
               ("storage", JVal.s "LOCAL_DISK")]) ∧
    healthResponseFile.2.lookup "ok" = some (JVal.b true) ∧
    healthResponseFile.2.lookup "status" = some (JVal.s "healthy") ∧
    healthResponseSupabase.2.lookup "ok" = some (JVal.b true) ∧
    healthResponseSupabase.2.lookup "status" = some (JVal.s "healthy") := by
  refine ⟨rfl, rfl, ?_, ?_, ?_, ?_⟩ <;> decide

/-- Claim C10: readDB of the file-backed variant is total: a missing or
unreadable file, a parse failure, and a non-array value all give the empty
array, while an array parse gives exactly that array; hence the list and
upload handlers built on readDB always answer without observing a store-read
exception. -/
theorem c10_readDB_total (parse : String → Option Json) (raw : String)
    (xs : List Item) (uuid : String) (now : Nat) (f : FilePart)
    (title descr : String) (blobs : List String) (r : FsRead) :
    readDB FsRead.fsError parse = [] ∧
    (parse raw = none → readDB (FsRead.ok raw) parse = []) ∧
    (parse raw = some Json.notArr → readDB (FsRead.ok raw) parse = []) ∧
    (parse raw = some (Json.arr xs) → readDB (FsRead.ok raw) parse = xs) ∧
    (listHandlerFile (readDB r parse)).status = 200 ∧
    (uploadHandlerFile uuid now ⟨some f, title, descr⟩
      ⟨readDB r parse, blobs⟩).1.status = 200 := by
  refine ⟨rfl, ?_, ?_, ?_, rfl, rfl⟩ <;> intro h <;> simp [readDB, h]

/-- Concrete run of c10_readDB_total on a malformed metadata file. -/
theorem c10_witness :
    parseNone "not json" = none ∧
    readDB (FsRead.ok "not json") parseNone = [] ∧
    readDB FsRead.fsError parseNone = [] ∧
    (listHandlerFile (readDB (FsRead.ok "not json") parseNone)).status = 200 :=
  ⟨rfl,
   (c10_readDB_total parseNone "not json" [] "u" 0 ⟨"a.png", "image/png", 1⟩
     "" "" [] (FsRead.ok "not json")).2.1 rfl,
   (c10_readDB_total parseNone "not json" [] "u" 0 ⟨"a.png", "image/png", 1⟩
     "" "" [] FsRead.fsError).1,
   (c10_readDB_total parseNone "not json" [] "u" 0 ⟨"a.png", "image/png", 1⟩
     "" "" [] (FsRead.ok "not json")).2.2.2.2.1⟩

/-- Claim C2 fails as stated: after two successful uploads that share an
uploadedAt timestamp, the listing is descending but not strictly so. -/
theorem c2_counterexample :
    ¬ List.Pairwise (fun a b => b.uploadedAt < a.uploadedAt)
      (itemsOf (listHandlerFile (runUploadsFile tiedUploads ⟨[], []⟩).db)) := by
  decide

/-- Claim C2 (amended): in both variants the portfolio listing is sorted by
uploadedAt in descending order with ties allowed — the file-backed handler by
its own sort, the Supabase handler through the ordered select, whose rows its
url-rewriting map passes through in order — it is strictly descending
whenever the stored upload times are pairwise distinct, it returns one item
per stored row, and after N successful uploads with no deletes it returns
exactly N items. -/
theorem c2_list_sorted_count (db table : List Item)
    (ups : List (String × Nat × UploadReq))
    (mimeLookup getUrl : String → Option String)
    (h : ∀ u ∈ ups, ¬ u.2.2.file = none)
    (hg : ∀ n, ∃ u, getUrl n = some u ∧ ¬ u = "") :
    List.Pairwise (fun a b => b.uploadedAt ≤ a.uploadedAt)
      (itemsOf (listHandlerFile db)) ∧
    (itemsOf (listHandlerFile db)).length = db.length ∧
    (List.Pairwise (fun a b => ¬ a.uploadedAt = b.uploadedAt) db →
      List.Pairwise (fun a b => b.uploadedAt < a.uploadedAt)
        (itemsOf (listHandlerFile db))) ∧
    (itemsOf (listHandlerFile (runUploadsFile ups ⟨[], []⟩).db)).length
      = ups.length ∧
    List.Pairwise (fun a b => b.uploadedAt ≤ a.uploadedAt)
      (itemsOf (listHandlerSupabase (supabaseSelectOrdered table) getUrl)) ∧
    (itemsOf (listHandlerSupabase (supabaseSelectOrdered table)
      getUrl)).length = table.length ∧
    (List.Pairwise (fun a b => ¬ a.uploadedAt = b.uploadedAt) table →
      List.Pairwise (fun a b => b.uploadedAt < a.uploadedAt)
        (itemsOf (listHandlerSupabase (supabaseSelectOrdered table)
          getUrl))) ∧
    (itemsOf (listHandlerSupabase (supabaseSelectOrdered
      (runUploadsSupabase ups mimeLookup getUrl ⟨[], []⟩).table)
      getUrl)).length = ups.length := by
  refine ⟨pairwise_sortDesc db, length_sortDesc db, ?_, ?_, ?_, ?_, ?_, ?_⟩
  · intro hdist
    exact sortDesc_strict_of_distinct hdist
  · show (sortDesc (runUploadsFile ups ⟨[], []⟩).db).length = ups.length
    rw [length_sortDesc, runUploadsFile_db_length ups ⟨[], []⟩ h]
    simp
  · rw [supabaseSelectOrdered, itemsOf_listHandlerSupabase_ok]
    exact List.pairwise_map.mpr (pairwise_sortDesc table)
  · rw [supabaseSelectOrdered, itemsOf_listHandlerSupabase_ok,
      List.length_map, length_sortDesc]
  · intro hdist
    rw [supabaseSelectOrdered, itemsOf_listHandlerSupabase_ok]
    exact List.pairwise_map.mpr (sortDesc_strict_of_distinct hdist)
  · rw [supabaseSelectOrdered, itemsOf_listHandlerSupabase_ok,
      List.length_map, length_sortDesc,
      runUploadsSupabase_table_length ups mimeLookup getUrl ⟨[], []⟩ h hg]
    simp

/-- Concrete run of c2_list_sorted_count: a one-item store and the two tied
uploads, in both variants. -/
theorem c2_witness :
    List.Pairwise (fun a b => b.uploadedAt ≤ a.uploadedAt)
      (itemsOf (listHandlerFile [sampleItem])) ∧
    (itemsOf (listHandlerFile [sampleItem])).length = 1 ∧
    (itemsOf (listHandlerFile (runUploadsFile tiedUploads ⟨[], []⟩).db)).length
      = 2 ∧
    List.Pairwise (fun a b => b.uploadedAt ≤ a.uploadedAt)
      (itemsOf (listHandlerSupabase (supabaseSelectOrdered [sampleItem])
        sampleGetUrl)) ∧
    (itemsOf (listHandlerSupabase (supabaseSelectOrdered [sampleItem])
      sampleGetUrl)).length = 1 ∧
    (itemsOf (listHandlerSupabase (supabaseSelectOrdered
      (runUploadsSupabase tiedUploads sampleMime sampleGetUrl
        ⟨[], []⟩).table) sampleGetUrl)).length = 2 := by
  have h := c2_list_sorted_count [sampleItem] [sampleItem] tiedUploads
    sampleMime sampleGetUrl (by decide) sampleGetUrl_ok
  exact ⟨h.1, h.2.1, h.2.2.2.1, h.2.2.2.2.1, h.2.2.2.2.2.1,
    h.2.2.2.2.2.2.2⟩

/-- Claim C3: in both variants an authorized delete removes the metadata row
before removing the blob; when blob removal fails the row removal is not
rolled back, so the request answers 500 while the row stays deleted and the
blob survives as an orphan; when everything succeeds both row and blob are
gone and the answer is 200 ok=true. -/
theorem c3_delete_not_atomic (adminKey id : String) (hak : ¬ adminKey = "")
    (stF : FState) (removed : Item) (rest : List Item)
    (hrm : removeFirst id stF.db = some (removed, rest))
    (hblob : removed.storedName ∈ stF.blobs)
    (stS : SState) (row : Item) (e : String)
    (hrow : stS.table.filter (fun x => decide (x.id = id)) = [row])
    (hsn : ¬ row.storedName = "") :
    (deleteHandlerFile adminKey (some adminKey) id false stF).1.status = 500 ∧
    (deleteHandlerFile adminKey (some adminKey) id false stF).2.db = rest ∧
    (deleteHandlerFile adminKey (some adminKey) id false stF).2.blobs
      = stF.blobs ∧
    (deleteHandlerFile adminKey (some adminKey) id true stF).1
      = ⟨200, Body.okTrue⟩ ∧
    (deleteHandlerFile adminKey (some adminKey) id true stF).2.db = rest ∧
    (deleteHandlerFile adminKey (some adminKey) id true stF).2.blobs
      = stF.blobs.erase removed.storedName ∧
    (deleteHandlerSupabase adminKey (some adminKey) id none (some e)
      stS).1.status = 500 ∧
    (deleteHandlerSupabase adminKey (some adminKey) id none (some e)
      stS).2.table = stS.table.filter (fun x => decide (¬ x.id = id)) ∧
    (deleteHandlerSupabase adminKey (some adminKey) id none (some e)
      stS).2.bucket = stS.bucket ∧
    (deleteHandlerSupabase adminKey (some adminKey) id none none stS).1
      = ⟨200, Body.okTrue⟩ ∧
    (deleteHandlerSupabase adminKey (some adminKey) id none none stS).2.table
      = stS.table.filter (fun x => decide (¬ x.id = id)) ∧
    (deleteHandlerSupabase adminKey (some adminKey) id none none stS).2.bucket
      = stS.bucket.erase row.storedName := by
  have hk := keyRejected_self hak
  simp [deleteHandlerFile, deleteHandlerSupabase, hk, hrm, hblob, hrow, hsn]

/-- Concrete run of c3_delete_not_atomic: the stored item is deleted from the
metadata store even when blob removal fails, in both variants. -/
theorem c3_witness :
    (deleteHandlerFile "secret" (some "secret") "a1" false
      ⟨[sampleItem], ["a1.png"]⟩).1.status = 500 ∧
    (deleteHandlerFile "secret" (some "secret") "a1" false
      ⟨[sampleItem], ["a1.png"]⟩).2.db = [] ∧
    (deleteHandlerFile "secret" (some "secret") "a1" false
      ⟨[sampleItem], ["a1.png"]⟩).2.blobs = ["a1.png"] ∧
    (deleteHandlerSupabase "secret" (some "secret") "a1" none (some "boom")
      ⟨[sampleItem], ["a1.png"]⟩).1.status = 500 ∧
    (deleteHandlerSupabase "secret" (some "secret") "a1" none (some "boom")
      ⟨[sampleItem], ["a1.png"]⟩).2.table = [] ∧
    (deleteHandlerSupabase "secret" (some "secret") "a1" none (some "boom")
      ⟨[sampleItem], ["a1.png"]⟩).2.bucket = ["a1.png"] := by
  have h := c3_delete_not_atomic "secret" "a1" (by decide)
    ⟨[sampleItem], ["a1.png"]⟩ sampleItem [] (by decide) (by decide)
    ⟨[sampleItem], ["a1.png"]⟩ sampleItem "boom" (by decide) (by decide)
  exact ⟨h.1, h.2.1, h.2.2.1, h.2.2.2.2.2.2.1,
    (h.2.2.2.2.2.2.2.1).trans (by decide), h.2.2.2.2.2.2.2.2.1⟩

/-- Claim C6: every successful upload stores the item under
storedName = id ++ extension(original filename), where the id is the fresh
uuid chosen by the storage callback (uuids contain neither dots nor slashes)
and an original name without an extension contributes the empty string; this
holds in both variants, so storedName is determined by the id and the
original extension. -/
theorem c6_storedName (uuid : String) (hne : ¬ uuid = "")
    (hdot : ∀ c ∈ uuid.data, ¬ c = '.') (hsl : ∀ c ∈ uuid.data, ¬ c = '/')
    (now : Nat) (f : FilePart) (title descr : String) (st : FState)
    (mimeLookup getUrl : String → Option String) (sErr iErr : Option String)
    (stS : SState)
    (hS : (uploadHandlerSupabase uuid now ⟨some f, title, descr⟩ mimeLookup
      getUrl sErr iErr stS).1.status = 200) :
    (∃ it, (uploadHandlerFile uuid now ⟨some f, title, descr⟩ st).1.body
        = Body.item it ∧ it.id = uuid ∧
        it.storedName = it.id ++ extname f.originalname) ∧
    (∃ it, (uploadHandlerSupabase uuid now ⟨some f, title, descr⟩ mimeLookup
        getUrl sErr iErr stS).1.body = Body.item it ∧ it.id = uuid ∧
        it.storedName = it.id ++ extname f.originalname) := by
  have hid := parseName_multer uuid f.originalname hne hdot hsl
  constructor
  · refine ⟨mkItemFile uuid f title descr now, rfl, hid, ?_⟩
    show multerFilename uuid f.originalname
      = (mkItemFile uuid f title descr now).id ++ extname f.originalname
    rw [show (mkItemFile uuid f title descr now).id = uuid from hid,
      multerFilename]
  · rcases sErr with _ | e
    · rcases hg : getUrl (multerFilename uuid f.originalname) with _ | u
      · simp [uploadHandlerSupabase, hg] at hS
      · by_cases hu : u = ""
        · simp [uploadHandlerSupabase, hg, hu] at hS
        · rcases iErr with _ | e2
          · refine ⟨mkRowSupabase uuid f title descr
              (detectContentType f mimeLookup) u now, ?_, hid, ?_⟩
            · simp [uploadHandlerSupabase, hg, hu]
            · show multerFilename uuid f.originalname
                = (mkRowSupabase uuid f title descr
                    (detectContentType f mimeLookup) u now).id
                  ++ extname f.originalname
              rw [show (mkRowSupabase uuid f title descr
                  (detectContentType f mimeLookup) u now).id = uuid from hid,
                multerFilename]
          · simp [uploadHandlerSupabase, hg, hu] at hS
    · simp [uploadHandlerSupabase] at hS

/-- Concrete run of c6_storedName. -/
theorem c6_witness :
    (∃ it, (uploadHandlerFile "abc123" 7
        ⟨some ⟨"logo.png", "image/png", 12000⟩, "Logo", ""⟩
        ⟨[], []⟩).1.body = Body.item it ∧ it.id = "abc123" ∧
        it.storedName = it.id ++ extname "logo.png") ∧
    (∃ it, (uploadHandlerSupabase "abc123" 7
        ⟨some ⟨"logo.png", "image/png", 12000⟩, "Logo", ""⟩
        sampleMime sampleGetUrl none none ⟨[], []⟩).1.body = Body.item it ∧
        it.id = "abc123" ∧
        it.storedName = it.id ++ extname "logo.png") :=
  c6_storedName "abc123" (by decide) (by decide) (by decide) 7
    ⟨"logo.png", "image/png", 12000⟩ "Logo" "" ⟨[], []⟩
    sampleMime sampleGetUrl none none ⟨[], []⟩ (by decide)

/-- Claim C7: in both variants a successful upload stores, as the item
title, the trimmed provided title unless it is blank — empty or
whitespace-only, equivalently trimming to the empty string — in which case
the original filename is stored instead. -/
theorem c7_title_default (uuid : String) (now : Nat) (f : FilePart)
    (title descr : String) (st : FState)
    (mimeLookup getUrl : String → Option String) (sErr iErr : Option String)
    (stS : SState)
    (hS : (uploadHandlerSupabase uuid now ⟨some f, title, descr⟩ mimeLookup
      getUrl sErr iErr stS).1.status = 200) :
    (jsTrim title = "" ↔ ∀ c ∈ title.data, isJsWhitespace c = true) ∧
    (∃ it, (uploadHandlerFile uuid now ⟨some f, title, descr⟩ st).1.body
        = Body.item it ∧
        (jsTrim title = "" → it.title = f.originalname) ∧
        (¬ jsTrim title = "" → it.title = jsTrim title)) ∧
    (∃ it, (uploadHandlerSupabase uuid now ⟨some f, title, descr⟩ mimeLookup
        getUrl sErr iErr stS).1.body = Body.item it ∧
        (jsTrim title = "" → it.title = f.originalname) ∧
        (¬ jsTrim title = "" → it.title = jsTrim title)) := by
  refine ⟨jsTrim_eq_empty_iff, ?_, ?_⟩
  · refine ⟨mkItemFile uuid f title descr now, rfl, ?_, ?_⟩
    · intro ht
      show (if jsTrim title = "" then f.originalname else jsTrim title)
        = f.originalname
      rw [if_pos ht]
    · intro ht
      show (if jsTrim title = "" then f.originalname else jsTrim title)
        = jsTrim title
      rw [if_neg ht]
  · rcases sErr with _ | e
    · rcases hg : getUrl (multerFilename uuid f.originalname) with _ | u
      · simp [uploadHandlerSupabase, hg] at hS
      · by_cases hu : u = ""
        · simp [uploadHandlerSupabase, hg, hu] at hS
        · rcases iErr with _ | e2
          · refine ⟨mkRowSupabase uuid f title descr
              (detectContentType f mimeLookup) u now, ?_, ?_, ?_⟩
            · simp [uploadHandlerSupabase, hg, hu]
            · intro ht
              show (if jsTrim title = "" then f.originalname else jsTrim title)
                = f.originalname
              rw [if_pos ht]
            · intro ht
              show (if jsTrim title = "" then f.originalname else jsTrim title)
                = jsTrim title
              rw [if_neg ht]
          · simp [uploadHandlerSupabase, hg, hu] at hS
    · simp [uploadHandlerSupabase] at hS

/-- Concrete run of c7_title_default on a whitespace-only title. -/
theorem c7_witness :
    (jsTrim "  " = "" ↔ ∀ c ∈ ("  " : String).data, isJsWhitespace c = true) ∧
    (∃ it, (uploadHandlerFile "abc123" 7
        ⟨some ⟨"logo.png", "image/png", 12000⟩, "  ", ""⟩
        ⟨[], []⟩).1.body = Body.item it ∧
        (jsTrim "  " = "" → it.title = "logo.png") ∧
        (¬ jsTrim "  " = "" → it.title = jsTrim "  ")) ∧
    (∃ it, (uploadHandlerSupabase "abc123" 7
        ⟨some ⟨"logo.png", "image/png", 12000⟩, "  ", ""⟩
        sampleMime sampleGetUrl none none ⟨[], []⟩).1.body = Body.item it ∧
        (jsTrim "  " = "" → it.title = "logo.png") ∧
        (¬ jsTrim "  " = "" → it.title = jsTrim "  ")) :=
  c7_title_default "abc123" 7 ⟨"logo.png", "image/png", 12000⟩ "  " ""
    ⟨[], []⟩ sampleMime sampleGetUrl none none ⟨[], []⟩ (by decide)
